import Mathlib

/-!
Verification of `google-cloud-dataproc/synth.py`, a code-generation
post-processing script: a linear manifest of copy and replace operations
applied to a working tree of generated Ruby sources, plus one nontrivial
algorithm, the fixed-point brace-escaping callback `escape_braces`.

Strings are modelled as `List Char`.  The Python regular-expression
machinery used by `escape_braces` is embedded for the one concrete
pattern the script compiles:

  ^([^`]*(`[^`]*`[^`]*)*)([^`#$\x5c])\x7b([\w,]+)\x7d

Anchored at the start of the string, this pattern matches when the string
splits as  pre ++ [c] ++ [lbrace] ++ w ++ [rbrace] ++ rest  where `pre`
contains an even number of backticks (group 1), `c` is none of
backtick, '#', '$', backslash (group 3), and `w` (group 4) is a nonempty
run of word characters or commas followed immediately by the closing
brace; since `[\w,]+` is greedy and the closing brace is not a word
character, `w` is forced to be the maximal such run.  A backtracking
engine with greedy quantifiers explores candidate positions for `c`
from right to left (longest group 1 first), so the match chosen is the
one whose brace token is rightmost among eligible positions.
`re.subn` with this `^`-anchored pattern (no MULTILINE flag) performs at
most one substitution per call.  The replacement template
`\x5c1\x5c3\x5c\x5c\x7b\x5c4\x7d` reinserts groups 1 and 3 and places two
literal backslashes before the opening brace of the token.
-/

set_option maxRecDepth 16384

namespace SynthDataproc

/-- The backtick character (0x60). -/
def tick : Char := '\x60'

/-- Characters excluded by the character class `[^`#$\x5c]` that guards the
brace token in the `escape_braces` pattern. -/
def sentinel (c : Char) : Bool :=
  c == tick || c == '#' || c == '$' || c == '\\'

/-- ASCII reading of Python `\w` or `,`: letters, digits, underscore, comma. -/
def wordComma (c : Char) : Bool :=
  c.isAlphanum || c == '_' || c == ','

/-- Group 1 of the pattern, `[^`]*(`[^`]*`[^`]*)*`, matches exactly the
strings containing an even number of backticks: a prefix with an even
backtick count ends outside any inline code span. -/
def tickEven (l : List Char) : Bool :=
  (l.countP (fun c => c == tick)) % 2 == 0

/-- The opening brace character (0x7b). -/
def lbrace : Char := '\x7b'

/-- The closing brace character (0x7d). -/
def rbrace : Char := '\x7d'

/-- Groups after the opening brace: a nonempty maximal run of `[\w,]`
characters followed immediately by the closing brace. -/
def tokenBody (rest : List Char) : Bool :=
  let w := rest.takeWhile wordComma
  !w.isEmpty && ((rest.drop w.length).head? == some rbrace)

/-- Position `p` carries an eligible brace token: the character at `p` is
group 3 (not a sentinel), it is followed by an opening brace and a valid
token body, and the prefix before `p` has an even backtick count (the
token is outside inline code spans). -/
def eligibleAt (s : List Char) (p : Nat) : Bool :=
  match s.drop p with
  | c :: lb :: rest =>
      !sentinel c && lb == lbrace && tickEven (s.take p) && tokenBody rest
  | _ => false

/-- The brace-token position selected by the greedy anchored pattern:
the rightmost eligible position. -/
def lastEligible (s : List Char) : Option Nat :=
  (List.range s.length).reverse.find? (fun p => eligibleAt s p)

/-- One call of `expr.subn` on the anchored pattern: at most one
substitution, inserting two literal backslashes between group 3 and the
opening brace of the selected token.  Returns the new string and the
substitution count. -/
def subnStep (s : List Char) : List Char × Nat :=
  match lastEligible s with
  | some p => (s.take (p + 1) ++ '\\' :: '\\' :: s.drop (p + 1), 1)
  | none => (s, 0)

/-- Count of opening braces not already preceded by a backslash, carrying
the previous character; the termination measure for the `while True`
loop of `escape_braces`. -/
def ucount (prev : Option Char) : List Char → Nat
  | [] => 0
  | c :: t => (if c = lbrace ∧ prev ≠ some '\\' then 1 else 0) + ucount (some c) t

/-- The `while True` loop of `escape_braces`, fuelled; the fuel
`ucount none s + 1` used by `escape_braces` is proved sufficient below
(`subnStep_escape_braces`). -/
def escapeLoop : Nat → List Char → List Char
  | 0, s => s
  | f + 1, s =>
      let r := subnStep s
      if r.2 == 0 then r.1 else escapeLoop f r.1

/-- `escape_braces` from synth.py: repeatedly apply the anchored
substitution until the substitution count is zero, then return the
content. -/
def escape_braces (s : List Char) : List Char :=
  escapeLoop (ucount none s + 1) s

/-- Last character of `xs`, defaulting to `prev`: the carried previous
character after consuming `xs`. -/
def lastChar (prev : Option Char) : List Char → Option Char
  | [] => prev
  | c :: t => lastChar (some c) t

theorem ucount_append (xs : List Char) :
    ∀ (prev : Option Char) (ys : List Char),
      ucount prev (xs ++ ys) = ucount prev xs + ucount (lastChar prev xs) ys := by
  induction xs with
  | nil => intro prev ys; simp [ucount, lastChar]
  | cons x xs ih =>
      intro prev ys
      simp only [List.cons_append, ucount, List.append_eq, lastChar, ih (some x) ys]
      omega

/-- Inserting the two escape backslashes between the guard character and the
opening brace lowers the unescaped-brace count by exactly one. -/
theorem ucount_insert (A rest : List Char) (c : Char) (hc : c ≠ '\\') :
    ucount none (A ++ c :: '\\' :: '\\' :: lbrace :: rest) + 1
      = ucount none (A ++ c :: lbrace :: rest) := by
  rw [ucount_append, ucount_append]
  have h1 : ucount (lastChar none A) (c :: '\\' :: '\\' :: lbrace :: rest)
      = (if c = lbrace ∧ lastChar none A ≠ some '\\' then 1 else 0)
        + ucount (some lbrace) rest := by
    simp [ucount, lbrace]
  have h2 : ucount (lastChar none A) (c :: lbrace :: rest)
      = (if c = lbrace ∧ lastChar none A ≠ some '\\' then 1 else 0)
        + (1 + ucount (some lbrace) rest) := by
    simp [ucount, hc]
  rw [h1, h2]
  omega

theorem eligibleAt_decomp (s : List Char) (p : Nat) (h : eligibleAt s p = true) :
    ∃ c rest, s.drop p = c :: lbrace :: rest ∧ sentinel c = false ∧
      tickEven (s.take p) = true ∧ tokenBody rest = true := by
  unfold eligibleAt at h
  cases hd : s.drop p with
  | nil => rw [hd] at h; simp at h
  | cons c t =>
      cases t with
      | nil => rw [hd] at h; simp at h
      | cons lb rest =>
          rw [hd] at h
          simp only [Bool.and_eq_true, Bool.not_eq_true', beq_iff_eq] at h
          obtain ⟨⟨⟨hsent, hlb⟩, htick⟩, htok⟩ := h
          subst hlb
          exact ⟨c, rest, rfl, hsent, htick, htok⟩

/-- Shape of a successful substitution: the string splits at the selected
token, the guard character is not a sentinel, the prefix is outside inline
code spans, and the output reinserts everything with two backslashes before
the opening brace. -/
theorem subnStep_decomp (s s' : List Char) (h : subnStep s = (s', 1)) :
    ∃ A c rest, s = A ++ c :: lbrace :: rest ∧
      s' = A ++ c :: '\\' :: '\\' :: lbrace :: rest ∧
      sentinel c = false ∧ tickEven A = true ∧ tokenBody rest = true := by
  unfold subnStep at h
  cases hle : lastEligible s with
  | none => rw [hle] at h; simp at h
  | some p =>
      rw [hle] at h
      have helig : eligibleAt s p = true := List.find?_some hle
      obtain ⟨c, rest, hdrop, hsent, htick, htok⟩ := eligibleAt_decomp s p helig
      have hs : s = s.take p ++ c :: lbrace :: rest := by
        conv_lhs => rw [← List.take_append_drop p s]
        rw [hdrop]
      have htake : s.take (p + 1) = s.take p ++ [c] := by
        rw [List.take_add s p 1, hdrop]
        rfl
      have hdrop1 : s.drop (p + 1) = lbrace :: rest := by
        rw [← List.drop_drop 1 p s, hdrop]
        rfl
      refine ⟨s.take p, c, rest, hs, ?_, hsent, htick, htok⟩
      have h1 : s.take (p + 1) ++ '\\' :: '\\' :: s.drop (p + 1) = s' :=
        congrArg Prod.fst h
      rw [← h1, htake, hdrop1]
      simp

/-- A successful substitution strictly decreases the unescaped-brace count:
the rewritten token's opening brace is now preceded by a backslash, a
character excluded by the guard class, so it cannot be matched again. -/
theorem ucount_subnStep (s s' : List Char) (h : subnStep s = (s', 1)) :
    ucount none s' + 1 = ucount none s := by
  obtain ⟨A, c, rest, hs, hs', hsent, -, -⟩ := subnStep_decomp s s' h
  have hc : c ≠ '\\' := by
    intro hcc
    rw [hcc] at hsent
    simp [sentinel] at hsent
  rw [hs, hs']
  exact ucount_insert A rest c hc

theorem subnStep_count (s : List Char) :
    (subnStep s).2 = 0 ∨ subnStep s = ((subnStep s).1, 1) := by
  unfold subnStep
  cases lastEligible s with
  | none => left; rfl
  | some p => right; rfl

/-- With fuel exceeding the unescaped-brace count, the loop reaches a string
on which the substitution makes no rewrite: the `while True` loop exits. -/
theorem escapeLoop_fix (f : Nat) :
    ∀ s : List Char, ucount none s < f →
      subnStep (escapeLoop f s) = (escapeLoop f s, 0) := by
  induction f with
  | zero => intro s h; omega
  | succ f ih =>
      intro s h
      rcases subnStep_count s with h0 | h1
      · have hz : subnStep s = (s, 0) := by
          unfold subnStep at h0 ⊢
          cases hle : lastEligible s with
          | none => rfl
          | some p => rw [hle] at h0; simp at h0
        simp [escapeLoop, hz]
      · have hd : ucount none (subnStep s).1 + 1 = ucount none s :=
          ucount_subnStep s (subnStep s).1 h1
        have h2 : (subnStep s).2 = 1 := by rw [h1]
        simp only [escapeLoop, h2]
        simpa using ih (subnStep s).1 (by omega)

/-- The fixed point: after `escape_braces`, no further substitution occurs. -/
theorem subnStep_escape_braces (s : List Char) :
    subnStep (escape_braces s) = (escape_braces s, 0) := by
  exact escapeLoop_fix (ucount none s + 1) s (Nat.lt_succ_self _)

theorem drop_length_takeWhile (p : Char → Bool) (l : List Char) :
    l.drop (l.takeWhile p).length = l.dropWhile p := by
  induction l with
  | nil => rfl
  | cons c t ih =>
      by_cases hpc : p c = true
      · simp [List.takeWhile_cons, List.dropWhile_cons, hpc, ih]
      · simp [List.takeWhile_cons, List.dropWhile_cons, hpc]

theorem tokenBody_decomp (rest : List Char) (h : tokenBody rest = true) :
    ∃ w rest', rest = w ++ rbrace :: rest' ∧ w ≠ [] ∧ w.all wordComma = true := by
  unfold tokenBody at h
  simp only [Bool.and_eq_true, Bool.not_eq_true', List.isEmpty_eq_false,
    ne_eq, beq_iff_eq] at h
  obtain ⟨hne, hhead⟩ := h
  rw [drop_length_takeWhile wordComma rest] at hhead
  cases hdw : rest.dropWhile wordComma with
  | nil => rw [hdw] at hhead; simp at hhead
  | cons a t =>
      rw [hdw] at hhead
      simp only [List.head?_cons, Option.some.injEq] at hhead
      refine ⟨rest.takeWhile wordComma, t, ?_, hne, ?_⟩
      · conv_lhs => rw [← List.takeWhile_append_dropWhile wordComma rest]
        rw [hdw, hhead]
      · simp only [List.all_eq_true]
        intro x hx
        exact List.mem_takeWhile_imp hx

/-- Claim C1: every rewrite performed by the fixed-point escape transform
splits the line at a brace-delimited placeholder token whose guard
character is neither an escape nor a sentinel, whose prefix lies outside
inline code spans (even backtick count), and inserts the escape before the
opening brace; the transform reapplies the rewrite until none occurs in the
line, and it handles multiple placeholders per line including adjacent
ones. -/
theorem escape_braces_correct (s s' : List Char) (h : subnStep s = (s', 1)) :
    (∃ A c w rest, s = A ++ c :: lbrace :: (w ++ rbrace :: rest) ∧
       s' = A ++ c :: '\\' :: '\\' :: lbrace :: (w ++ rbrace :: rest) ∧
       sentinel c = false ∧ tickEven A = true ∧ w ≠ [] ∧ w.all wordComma = true) ∧
    subnStep (escape_braces s) = (escape_braces s, 0) ∧
    escape_braces ("# a {x}{y} b".toList) = "# a \\\\{x}\\\\{y} b".toList := by
  refine ⟨?_, subnStep_escape_braces s, by decide⟩
  obtain ⟨A, c, rest0, hs, hs', hsent, htick, htok⟩ := subnStep_decomp s s' h
  obtain ⟨w, rest', hrest, hne, hall⟩ := tokenBody_decomp rest0 htok
  subst hrest
  exact ⟨A, c, w, rest', hs, hs', hsent, htick, hne, hall⟩

theorem escape_braces_correct_witness :
    (∃ A c w rest, "# b {m}".toList = A ++ c :: lbrace :: (w ++ rbrace :: rest) ∧
       "# b \\\\{m}".toList
         = A ++ c :: '\\' :: '\\' :: lbrace :: (w ++ rbrace :: rest) ∧
       sentinel c = false ∧ tickEven A = true ∧ w ≠ [] ∧ w.all wordComma = true) ∧
    subnStep (escape_braces ("# b {m}".toList))
      = (escape_braces ("# b {m}".toList), 0) ∧
    escape_braces ("# a {x}{y} b".toList) = "# a \\\\{x}\\\\{y} b".toList :=
  escape_braces_correct ("# b {m}".toList) ("# b \\\\{m}".toList) (by decide)

/-- Claim C2: on `"# returns {foo} and {bar}"` the fixed-point escape
transform yields `"# returns \x5c\x5c{foo} and \x5c\x5c{bar}"`, and a
`{foo}` occurring inside a backtick-quoted code span is left unescaped. -/
theorem escape_braces_examples :
    escape_braces ("# returns {foo} and {bar}".toList)
      = "# returns \\\\{foo} and \\\\{bar}".toList ∧
    escape_braces ("# \x60a {foo} b\x60 and {bar}".toList)
      = "# \x60a {foo} b\x60 and \\\\{bar}".toList :=
  ⟨by decide, by decide⟩

/-- Claim C9: the `while True` loop of `escape_braces` terminates: each
successful substitution places a backslash immediately before the rewritten
brace token, a character excluded by the guard class, so the count of
unescaped brace tokens strictly decreases, the substitution count reaches
zero, and the loop exits at a fixed point. -/
theorem escape_braces_terminates (s s' : List Char) :
    (subnStep s = (s', 1) → ucount none s' < ucount none s) ∧
    subnStep (escape_braces s) = (escape_braces s, 0) := by
  refine ⟨fun h => ?_, subnStep_escape_braces s⟩
  have := ucount_subnStep s s' h
  omega

theorem escape_braces_terminates_witness :
    ucount none ("# c \\\\{k}".toList) < ucount none ("# c {k}".toList) ∧
    subnStep (escape_braces ("# c {k}".toList))
      = (escape_braces ("# c {k}".toList), 0) :=
  ⟨(escape_braces_terminates ("# c {k}".toList) ("# c \\\\{k}".toList)).1 (by decide),
   (escape_braces_terminates ("# c {k}".toList) ("# c \\\\{k}".toList)).2⟩

/-!
The Patch Runner.  synth.py drives the external `synthtool` library:
`s.copy` and `s.replace` applied top-to-bottom against a working
directory.  The synthtool implementation is not part of this repository,
so the operation semantics below are modelled from the specification
(copy overwrites recursively and fails with `NotFoundError` on a missing
source; replace resolves its file list against the working tree, treats
zero matching paths as a no-op, and substitutes matches in place; all
errors are fatal and abort the manifest).
-/

/-- Modelled from the spec: the Working Tree, the sole mutable state —
a set of text files addressed by path, as an association list. -/
abbrev Tree := List (String × String)

/-- Modelled from the spec: read a file of the Working Tree by path. -/
def getFile : Tree → String → Option String
  | [], _ => none
  | (p, c) :: t, q => if p = q then some c else getFile t q

/-- Modelled from the spec: write a file of the Working Tree in place,
overwriting the content at the path or adding the file. -/
def setFile : Tree → String → String → Tree
  | [], p, c => [(p, c)]
  | (q, d) :: t, p, c => if q = p then (p, c) :: t else (q, d) :: setFile t p c

/-- Interior of `replaceAll`, fuelled (the fuel `s.length` used by
`replaceAll` always suffices): scan left to right, substituting each
non-overlapping occurrence of `pat` by `repl`, as `re.sub` does for a
literal pattern. -/
def raGo (pat repl : List Char) : Nat → List Char → List Char
  | 0, s => s
  | _ + 1, [] => []
  | f + 1, c :: cs =>
      if pat ≠ [] ∧ pat.isPrefixOf (c :: cs) then
        repl ++ raGo pat repl f (List.drop (pat.length - 1) cs)
      else
        c :: raGo pat repl f cs

/-- Substitute every non-overlapping occurrence of the literal pattern
`pat` by `repl`, left to right: the behaviour of `re.sub` for the
metacharacter-free patterns of the replace operations studied here. -/
def replaceAll (pat repl s : String) : String :=
  String.mk (raGo pat.toList repl.toList s.toList.length s.toList)

/-- Does `pat` occur as a contiguous substring? -/
def hasSubstr (pat : List Char) : List Char → Bool
  | [] => pat.isEmpty
  | c :: cs => pat.isPrefixOf (c :: cs) || hasSubstr pat cs

/-- Modelled from the spec: the errors of the Patch Runner — missing copy
source, unmergeable destination conflict, malformed match pattern. -/
inductive SynthError where
  | notFound
  | mergeConflict
  | patternError
deriving DecidableEq

instance {ε α : Type} [DecidableEq ε] [DecidableEq α] : DecidableEq (Except ε α) :=
  fun a b =>
    match a, b with
    | .ok x, .ok y =>
        match decEq x y with
        | .isTrue h => .isTrue (congrArg Except.ok h)
        | .isFalse h => .isFalse (fun hh => h (Except.ok.inj hh))
    | .error x, .error y =>
        match decEq x y with
        | .isTrue h => .isTrue (congrArg Except.error h)
        | .isFalse h => .isFalse (fun hh => h (Except.error.inj hh))
    | .ok _, .error _ => .isFalse (fun hh => Except.noConfusion hh)
    | .error _, .ok _ => .isFalse (fun hh => Except.noConfusion hh)

/-- Modelled from the spec: an Operation of the Manifest, either a copy
from the generated tree or a replace over a list of working-tree files
(file globs are modelled as the explicit path lists they denote; the
replace operations settled here all carry literal match patterns). -/
inductive Op where
  | copy (src : String)
  | replace (files : List String) (pat : String) (repl : String)

/-- Is `p` the source path itself or a path below it? -/
def underPath (src p : String) : Bool :=
  p == src || (src ++ "/").toList.isPrefixOf p.toList

/-- Modelled from the spec: one Operation against the Working Tree, with
the generated source tree `env`.  Copy recursively copies the source into
the destination, overwriting, and fails with `NotFoundError` if the
source does not exist.  Replace resolves its file list against the
Working Tree — zero matching paths is a no-op, not an error — and
substitutes in place in each resolved file. -/
def runOp (env : Tree) : Op → Tree → Except SynthError Tree
  | .copy src, t =>
      let entries := env.filter (fun e => underPath src e.1)
      if entries.isEmpty then .error .notFound
      else .ok (entries.foldl (fun acc e => setFile acc e.1 e.2) t)
  | .replace files pat repl, t =>
      let present := files.filter (fun f => (getFile t f).isSome)
      .ok (present.foldl (fun acc f =>
        match getFile acc f with
        | some content => setFile acc f (replaceAll pat repl content)
        | none => acc) t)

/-- Modelled from the spec: the Patch Runner executes the Manifest
top-to-bottom; each operation reads the Working Tree as left by all
earlier operations, and any error aborts the remainder. -/
def runOps (env : Tree) : List Op → Tree → Except SynthError Tree
  | [], t => .ok t
  | op :: rest, t =>
      match runOp env op t with
      | .ok t' => runOps env rest t'
      | .error e => .error e

/-- The file patched by the copy at line 51 and replace at line 52 of
synth.py. -/
def dataprocPath : String := "lib/google/cloud/dataproc.rb"

theorem getFile_setFile (t : Tree) (p q : String) (c : String) :
    getFile (setFile t p c) q = if q = p then some c else getFile t q := by
  induction t with
  | nil =>
      by_cases h : q = p
      · simp [setFile, getFile, h]
      · simp [setFile, getFile, h, Ne.symm h]
  | cons e t ih =>
      obtain ⟨a, d⟩ := e
      by_cases hap : a = p
      · subst hap
        by_cases hq : q = a
        · simp [setFile, getFile, hq]
        · simp [setFile, getFile, hq, Ne.symm hq]
      · by_cases haq : a = q
        · subst haq
          simp [setFile, getFile, hap]
        · simp [setFile, getFile, hap, haq, ih]

theorem getFile_setFile_isSome (t : Tree) (p q : String) (c : String)
    (h : (getFile t q).isSome = true) :
    (getFile (setFile t p c) q).isSome = true := by
  rw [getFile_setFile]
  by_cases hq : q = p <;> simp [hq, h]

theorem foldl_setFile_isSome (l : List (String × String)) :
    ∀ (t : Tree) (q : String), (getFile t q).isSome = true →
      (getFile (l.foldl (fun acc e => setFile acc e.1 e.2) t) q).isSome = true := by
  induction l with
  | nil => intro t q h; exact h
  | cons e l ih =>
      intro t q h
      exact ih (setFile t e.1 e.2) q (getFile_setFile_isSome t e.1 q e.2 h)

theorem foldl_replace_isSome (pat repl : String) (fs : List String) :
    ∀ (t : Tree) (q : String), (getFile t q).isSome = true →
      (getFile (fs.foldl (fun acc f =>
        match getFile acc f with
        | some content => setFile acc f (replaceAll pat repl content)
        | none => acc) t) q).isSome = true := by
  induction fs with
  | nil => intro t q h; exact h
  | cons f fs ih =>
      intro t q h
      cases hg : getFile t f with
      | none => simpa [hg] using ih t q h
      | some content =>
          simpa [hg] using
            ih (setFile t f (replaceAll pat repl content)) q
              (getFile_setFile_isSome t f q _ h)

/-- No operation removes a file: an operation that succeeds preserves the
presence of every path of the Working Tree. -/
theorem runOp_isSome (env : Tree) (op : Op) (t t' : Tree)
    (h : runOp env op t = .ok t') (q : String)
    (hq : (getFile t q).isSome = true) : (getFile t' q).isSome = true := by
  cases op with
  | copy src =>
      unfold runOp at h
      by_cases he : (env.filter (fun e => underPath src e.1)).isEmpty = true
      · simp [he] at h
      · simp only [he, if_false, Except.ok.injEq, Bool.false_eq_true] at h
        subst h
        exact foldl_setFile_isSome _ t q hq
  | replace files pat repl =>
      unfold runOp at h
      simp only [Except.ok.injEq] at h
      subst h
      exact foldl_replace_isSome pat repl _ t q hq

theorem runOps_isSome (env : Tree) (ops : List Op) :
    ∀ (t t' : Tree), runOps env ops t = .ok t' →
      ∀ q : String, (getFile t q).isSome = true → (getFile t' q).isSome = true := by
  induction ops with
  | nil =>
      intro t t' h q hq
      simp only [runOps, Except.ok.injEq] at h
      subst h
      exact hq
  | cons op rest ih =>
      intro t t' h q hq
      unfold runOps at h
      cases hop : runOp env op t with
      | error e => rw [hop] at h; simp at h
      | ok t1 =>
          rw [hop] at h
          exact ih t1 t' h q (runOp_isSome env op t t1 hop q hq)

theorem raGo_no_occurrence (pat repl : List Char) :
    ∀ (f : Nat) (s : List Char), hasSubstr pat s = false → raGo pat repl f s = s := by
  intro f
  induction f with
  | zero => intro s _; rfl
  | succ f ih =>
      intro s h
      cases s with
      | nil => rfl
      | cons c cs =>
          unfold hasSubstr at h
          simp only [Bool.or_eq_false_iff] at h
          unfold raGo
          rw [if_neg (by simp [h.1]), ih cs h.2]

/-- A literal replace whose pattern does not occur leaves the content
unchanged. -/
theorem replaceAll_no_occurrence (pat repl s : String)
    (h : hasSubstr pat.toList s.toList = false) : replaceAll pat repl s = s := by
  unfold replaceAll
  rw [raGo_no_occurrence pat.toList repl.toList s.toList.length s.toList h]
  cases s with
  | mk data => rfl

/-- Representative generated content for `lib/google/cloud/dataproc.rb`
before the module renames: a module declaration, a constructor-call site,
and occurrences of an unrelated identifier containing the substring. -/
def wtSource : String :=
  "module Google\n  module WorkflowTemplate\n  end\n  module WorkflowTemplateX\n  end\n  def self.workflow_template\n    WorkflowTemplate.new(version: :v1)\n  end\n  def self.other\n    WorkflowTemplateX.new\n  end\nend\n"

/-- `wtSource` after the module-rename replaces: declaration and call
site renamed, `WorkflowTemplateX` occurrences untouched. -/
def wtRenamed : String :=
  "module Google\n  module WorkflowTemplateService\n  end\n  module WorkflowTemplateX\n  end\n  def self.workflow_template\n    WorkflowTemplateService.new(version: :v1)\n  end\n  def self.other\n    WorkflowTemplateX.new\n  end\nend\n"

/-- Representative generated content for `lib/google/cloud/dataproc.rb`
copied from the v1beta2 library, with its `:v1beta2` default-version
tokens. -/
def dataprocSample : String :=
  "DEFAULT_VERSION = :v1beta2\nclient = Google::Cloud::Dataproc.new version: :v1beta2\n"

/-- Claim C3: the Patch Runner is deterministic: executing the same
manifest twice, each time starting from the same freshly generated
Working Tree, produces byte-identical output trees both times. -/
theorem manifest_deterministic (env : Tree) (ops : List Op) (t1 t2 : Tree)
    (h : t1 = t2) : runOps env ops t1 = runOps env ops t2 := by
  rw [h]

theorem manifest_deterministic_witness :
    runOps [] [Op.copy "lib"] [] = runOps [] [Op.copy "lib"] [] :=
  manifest_deterministic [] [Op.copy "lib"] [] [] rfl

/-- Claim C4: the module-rename replaces rewrite the module declaration
line `module WorkflowTemplate` to `module WorkflowTemplateService` and
the constructor-call sites `WorkflowTemplate.new` to
`WorkflowTemplateService.new` in the listed files, while content whose
occurrences of the name lie only inside longer identifiers such as
`WorkflowTemplateX` is left unchanged (the patterns are anchored by the
trailing newline and the `.new` suffix). -/
theorem workflow_template_rename (c : String)
    (h1 : hasSubstr ("module WorkflowTemplate\n".toList) c.toList = false)
    (h2 : hasSubstr ("WorkflowTemplate.new".toList) c.toList = false) :
    replaceAll "module WorkflowTemplate\n" "module WorkflowTemplateService\n" c = c ∧
    replaceAll "WorkflowTemplate.new" "WorkflowTemplateService.new" c = c ∧
    runOps []
        [Op.replace [dataprocPath, "lib/google/cloud/dataproc/v1.rb"]
           "module WorkflowTemplate\n" "module WorkflowTemplateService\n",
         Op.replace [dataprocPath]
           "WorkflowTemplate.new" "WorkflowTemplateService.new"]
        [(dataprocPath, wtSource)]
      = .ok [(dataprocPath, wtRenamed)] :=
  ⟨replaceAll_no_occurrence _ _ c h1, replaceAll_no_occurrence _ _ c h2, by decide⟩

theorem workflow_template_rename_witness :
    replaceAll "module WorkflowTemplate\n" "module WorkflowTemplateService\n"
        "module WorkflowTemplateX\n  WorkflowTemplateX.new\n"
      = "module WorkflowTemplateX\n  WorkflowTemplateX.new\n" ∧
    replaceAll "WorkflowTemplate.new" "WorkflowTemplateService.new"
        "module WorkflowTemplateX\n  WorkflowTemplateX.new\n"
      = "module WorkflowTemplateX\n  WorkflowTemplateX.new\n" ∧
    runOps []
        [Op.replace [dataprocPath, "lib/google/cloud/dataproc/v1.rb"]
           "module WorkflowTemplate\n" "module WorkflowTemplateService\n",
         Op.replace [dataprocPath]
           "WorkflowTemplate.new" "WorkflowTemplateService.new"]
        [(dataprocPath, wtSource)]
      = .ok [(dataprocPath, wtRenamed)] :=
  workflow_template_rename "module WorkflowTemplateX\n  WorkflowTemplateX.new\n"
    (by decide) (by decide)

/-- Claim C5: a replace whose file list resolves to zero existing paths
in the Working Tree leaves the tree unchanged and raises no error. -/
theorem replace_zero_files_noop (env t : Tree) (files : List String)
    (pat repl : String)
    (h : files.filter (fun f => (getFile t f).isSome) = []) :
    runOp env (.replace files pat repl) t = .ok t := by
  simp only [runOp, h, List.foldl_nil]

theorem replace_zero_files_noop_witness :
    runOp [] (.replace ["lib/google/cloud/dataproc/v9.rb"] ":v1beta2" ":v1")
        [("lib/a.rb", "x")]
      = .ok [("lib/a.rb", "x")] :=
  replace_zero_files_noop [] [("lib/a.rb", "x")]
    ["lib/google/cloud/dataproc/v9.rb"] ":v1beta2" ":v1" (by decide)

/-- Claim C6: a replace scoped to a single file with a literal match,
such as `:v1beta2` to `:v1` in `lib/google/cloud/dataproc.rb`, may change
only that file: every other path of the Working Tree is byte-identical
before and after the operation. -/
theorem replace_single_file_frame (env : Tree) (f : String) (pat repl : String)
    (t t' : Tree) (h : runOp env (.replace [f] pat repl) t = .ok t')
    (q : String) (hq : q ≠ f) : getFile t' q = getFile t q := by
  unfold runOp at h
  simp only [Except.ok.injEq] at h
  subst h
  cases hg : getFile t f with
  | none => simp [List.filter, hg]
  | some content => simp [List.filter, hg, getFile_setFile, hq]

theorem replace_single_file_frame_witness :
    getFile [(dataprocPath, "v = :v1\n"), ("lib/b.rb", "w = :v1beta2\n")] "lib/b.rb"
      = getFile [(dataprocPath, "v = :v1beta2\n"), ("lib/b.rb", "w = :v1beta2\n")]
          "lib/b.rb" :=
  replace_single_file_frame [] dataprocPath ":v1beta2" ":v1"
    [(dataprocPath, "v = :v1beta2\n"), ("lib/b.rb", "w = :v1beta2\n")]
    [(dataprocPath, "v = :v1\n"), ("lib/b.rb", "w = :v1beta2\n")]
    (by decide) "lib/b.rb" (by decide)

/-- Claim C7: operations execute in manifest order: the replace of
`:v1beta2` by `:v1` reads `lib/google/cloud/dataproc.rb` exactly as left
by the immediately preceding copy from the v1beta2 library, and on the
copied content every `:v1beta2` token is removed. -/
theorem manifest_order_dataproc (env t : Tree) (c : String)
    (henv : env.filter (fun e => underPath dataprocPath e.1)
      = [(dataprocPath, c)]) :
    runOps env [Op.copy dataprocPath,
        Op.replace [dataprocPath] ":v1beta2" ":v1"] t
      = .ok (setFile (setFile t dataprocPath c) dataprocPath
          (replaceAll ":v1beta2" ":v1" c)) ∧
    getFile (setFile (setFile t dataprocPath c) dataprocPath
          (replaceAll ":v1beta2" ":v1" c)) dataprocPath
      = some (replaceAll ":v1beta2" ":v1" c) ∧
    hasSubstr (":v1beta2".toList)
        ((replaceAll ":v1beta2" ":v1" dataprocSample).toList) = false := by
  refine ⟨?_, ?_, by decide⟩
  · have hget : getFile (setFile t dataprocPath c) dataprocPath = some c := by
      simp [getFile_setFile]
    have h1 : runOp env (Op.copy dataprocPath) t = .ok (setFile t dataprocPath c) := by
      simp [runOp, henv]
    have h2 : runOp env (Op.replace [dataprocPath] ":v1beta2" ":v1")
        (setFile t dataprocPath c)
        = .ok (setFile (setFile t dataprocPath c) dataprocPath
            (replaceAll ":v1beta2" ":v1" c)) := by
      simp [runOp, List.filter, hget, List.foldl_cons, List.foldl_nil]
    simp [runOps, h1, h2]
  · simp [getFile_setFile]

theorem manifest_order_dataproc_witness :
    runOps [(dataprocPath, dataprocSample)]
        [Op.copy dataprocPath, Op.replace [dataprocPath] ":v1beta2" ":v1"] []
      = .ok (setFile (setFile [] dataprocPath dataprocSample) dataprocPath
          (replaceAll ":v1beta2" ":v1" dataprocSample)) ∧
    getFile (setFile (setFile [] dataprocPath dataprocSample) dataprocPath
          (replaceAll ":v1beta2" ":v1" dataprocSample)) dataprocPath
      = some (replaceAll ":v1beta2" ":v1" dataprocSample) ∧
    hasSubstr (":v1beta2".toList)
        ((replaceAll ":v1beta2" ":v1" dataprocSample).toList) = false :=
  manifest_order_dataproc [(dataprocPath, dataprocSample)] [] dataprocSample
    (by decide)

/-- Claim C8: a copy whose source does not exist fails with
`NotFoundError`, and any operation error (missing copy source,
unmergeable destination conflict, malformed match pattern) aborts the
remainder of the manifest: no subsequent operation is applied and the run
ends in overall failure rather than partial success. -/
theorem copy_missing_aborts (env t : Tree) (src : String) (ops : List Op)
    (h : env.filter (fun x => underPath src x.1) = []) :
    runOp env (.copy src) t = .error .notFound ∧
    runOps env (Op.copy src :: ops) t = .error .notFound ∧
    ∀ (op : Op) (e : SynthError) (t0 : Tree), runOp env op t0 = .error e →
      runOps env (op :: ops) t0 = .error e := by
  have habort : ∀ (op : Op) (e : SynthError) (t0 : Tree),
      runOp env op t0 = .error e → runOps env (op :: ops) t0 = .error e := by
    intro op e t0 herr
    unfold runOps
    rw [herr]
  have hnf : runOp env (.copy src) t = .error .notFound := by
    simp [runOp, h]
  exact ⟨hnf, habort _ _ _ hnf, habort⟩

theorem copy_missing_aborts_witness :
    runOp [] (.copy "acceptance") [] = .error .notFound ∧
    runOps [] [Op.copy "acceptance", Op.copy "lib"] [] = .error .notFound ∧
    ∀ (op : Op) (e : SynthError) (t0 : Tree), runOp [] op t0 = .error e →
      runOps [] (op :: [Op.copy "lib"]) t0 = .error e :=
  copy_missing_aborts [] [] "acceptance" [Op.copy "lib"] (by decide)

/-- Claim C10: no operation of the manifest removes a file from the
Working Tree: copies add or overwrite files and replaces rewrite contents
in place, so every path present before a successful run is still present
after it — the path set is non-decreasing. -/
theorem no_file_removed (env : Tree) (ops : List Op) (t t' : Tree)
    (h : runOps env ops t = .ok t') (q : String)
    (hq : (getFile t q).isSome = true) : (getFile t' q).isSome = true :=
  runOps_isSome env ops t t' h q hq

theorem no_file_removed_witness :
    (getFile [("README.md", "hi"), ("lib/a.rb", "x = :v1\n")] "README.md").isSome
      = true :=
  no_file_removed [("lib/a.rb", "x = :v1beta2\n")]
    [Op.copy "lib", Op.replace ["lib/a.rb"] ":v1beta2" ":v1"]
    [("README.md", "hi")]
    [("README.md", "hi"), ("lib/a.rb", "x = :v1\n")]
    (by decide) "README.md" (by decide)

end SynthDataproc
